import Mathlib

/-!
Verification of the CarAndBike new-bike extraction script
(`scripts/extract_carandbike_new_bike_data.py`).

The definitions below are a shallow embedding of the script's pure logic:
HTML documents are modelled by the fields the script actually inspects
(grid `ul`/`li` structure, anchor tags, the JSON-LD script block, the
"contentCard" spec tables), Python dicts by ordered association lists,
Python `None` by an explicit `Val.null` constructor, and the script-level
`try/except` around JSON-LD mapping by `Except`-valued steps whose failure
keeps the assignments already made.
-/

namespace VehicleBot

/-- Char-level membership test: `hasSubList pat s` is Python's
`pat in s` for strings, character lists. -/
def hasSubList (pat : List Char) : List Char → Bool
  | [] => pat.isEmpty
  | c :: rest => pat.isPrefixOf (c :: rest) || hasSubList pat rest

/-- Python's `pat in s` on strings. -/
def hasSubStr (s pat : String) : Bool :=
  hasSubList pat.data s.data

/-- Python's `s.count(c)` for a one-character pattern: the number of
occurrences of the character. -/
def countChar (s : String) (c : Char) : Nat :=
  s.data.count c

/-- Python's single-character `str.replace(a, b)`: every occurrence of `a`
is replaced by `b`; with a one-character pattern this is a character map. -/
def replace1 (a b : Char) : List Char → List Char
  | [] => []
  | c :: rest => (if c = a then b else c) :: replace1 a b rest

/-- Python's `str.lower()`, character-wise (the script only lowercases
spec-table labels, which are ASCII). -/
def lowerStr (s : String) : String :=
  String.mk (s.data.map Char.toLower)

/-- The site's base URL, prefixed to relative hrefs
(`f"https://www.carandbike.com{href}"` in the script). -/
def baseUrl : String := "https://www.carandbike.com"

/-- Python's `s.startswith(pre)`, character-wise. -/
def strStartsWith (s pre : String) : Bool :=
  pre.data.isPrefixOf s.data

/-- The script's absolutization of an href:
`href if href.startswith("http") else f"https://www.carandbike.com{href}"`. -/
def absolize (href : String) : String :=
  if strStartsWith href "http" then href else baseUrl ++ href

/-- A JSON value as produced by `json.loads` (numbers are modelled as `Int`;
no claim depends on numeric values). `null` is Python's `None`, which is
also what `dict.get` returns for an absent key. -/
inductive Val where
  | null : Val
  | str : String → Val
  | num : Int → Val
  | bool : Bool → Val
  | dict : List (String × Val) → Val
  | list : List Val → Val

/-- Lookup in an ordered association list (Python dict read). -/
def lookupKey {α : Type} : List (String × α) → String → Option α
  | [], _ => none
  | (k', v) :: rest, k => if k' = k then some v else lookupKey rest k

/-- Python's `k in d` for a dict. -/
def hasKey {α : Type} (es : List (String × α)) (k : String) : Bool :=
  (lookupKey es k).isSome

/-- Python dict assignment `d[k] = v`: updates the value in place if the key
exists (keeping its position), else appends at the end (insertion order). -/
def setKey {α : Type} : List (String × α) → String → α → List (String × α)
  | [], k, v => [(k, v)]
  | (k', v') :: rest, k, v =>
    if k' = k then (k', v) :: rest else (k', v') :: setKey rest k v

/-- Python's `d.get(k)` on a JSON object: the value, or `None` when absent. -/
def dGet (es : List (String × Val)) (k : String) : Val :=
  (lookupKey es k).getD Val.null

/-! ## List discovery (`fetch_bike_links_playwright`, `extract_list_item`)

The listing page is modelled by what the two strategies inspect: the grid
`ul` containers with their direct `li` children (Strategy A), and the
document's anchor tags (Strategy B). -/

/-- An anchor inside a grid `li`: whether its class list carries the
`js-tracker` marker, its stripped visible text, and its `href` attribute
(`none` when the attribute is absent). -/
structure LiAnchor where
  jsTracker : Bool
  text : String
  href : Option String

/-- One direct `li` child of a grid `ul`: its anchors in document order,
its first `img` tag's `src` (with the `get("src", "")` default applied)
when an `img` tag exists, and its full visible text. -/
structure LiItem where
  anchors : List LiAnchor
  img : Option String
  text : String

/-- A document-level `a` tag as strategy B sees it: its `href` attribute
(`none` when absent) and its stripped visible text. -/
structure ATag where
  href : Option String
  text : String

/-- The rendered listing page: the grid `ul` containers (each with its
direct `li` children) and all anchor tags of the document. -/
structure ListingPage where
  grids : List (List LiItem)
  atags : List ATag

/-- A discovered candidate, the dict built by discovery: `title` and `link`
are always set; `image_link` and `exshowroom_price` are optional keys. -/
structure Candidate where
  title : String
  link : String
  image_link : Option String
  exshowroom_price : Option String

/-- The regex tail after the currency sign: `\s*([\d,]+\.?\d*)` applied at
the position right after a `₹`. Returns the captured group, or `none` when
no digit-or-comma character follows the optional whitespace. -/
def matchPriceAfter (cs : List Char) : Option (List Char) :=
  let cs := cs.dropWhile Char.isWhitespace
  let g := cs.takeWhile (fun c => c.isDigit || c = ',')
  let rest := cs.dropWhile (fun c => c.isDigit || c = ',')
  if g.isEmpty then none
  else
    match rest with
    | '.' :: rest2 => some (g ++ '.' :: rest2.takeWhile Char.isDigit)
    | _ => some g

/-- The script's `re.search(r'₹\s*([\d,]+\.?\d*)', text)`: scan for a `₹`
whose suffix matches the rest of the pattern, returning capture group 1 of
the first match. -/
def findPrice : List Char → Option String
  | [] => none
  | c :: rest =>
    if c = '₹' then
      match matchPriceAfter rest with
      | some g => some (String.mk g)
      | none => findPrice rest
    else findPrice rest

/-- The source's `li_item.find("a", class_=...js-tracker...) or li_item.find("a")`:
the `js-tracker` anchor when one exists, else the first anchor. -/
def titleTag (li : LiItem) : Option LiAnchor :=
  match li.anchors.find? (fun a => a.jsTracker) with
  | some a => some a
  | none => li.anchors.head?

/-- The script's `extract_list_item(li_item)`: pick the `js-tracker` anchor
or else the first anchor; with no anchor the item is skipped (`None`).
`href` defaults to the empty string (`get("href", "")`) and is absolutized. -/
def extract_list_item (li : LiItem) : Option Candidate :=
  match titleTag li with
  | none => none
  | some a =>
    some
      { title := a.text
        link := absolize (a.href.getD "")
        image_link := li.img
        exshowroom_price := (findPrice li.text.data) }

/-- Strategy B's filter `soup.find_all("a", href=lambda x: x and "/bikes/" in x)`:
anchors with an href containing the item-path marker. -/
def bikesLinkFilter (atags : List ATag) : List ATag :=
  atags.filter fun a =>
    match a.href with
    | some h => hasSubStr h "/bikes/"
    | none => false

/-- Strategy B's loop over the filtered anchors with its `seen_links` set:
skip seen hrefs, require `href.count('/') > 2`, require non-empty text;
an accepted anchor contributes a candidate and records its raw href. -/
def goB : List ATag → List String → List Candidate
  | [], _ => []
  | a :: rest, seen =>
    let href := (a.href.getD "")
    if href ∈ seen then goB rest seen
    else if countChar href '/' > 2 then
      if a.text ≠ "" then
        { title := a.text
          link := absolize href
          image_link := none
          exshowroom_price := none } :: goB rest (href :: seen)
      else goB rest seen
    else goB rest seen

/-- Strategy B (link patterns), as run when strategy A found nothing. -/
def strategyB (atags : List ATag) : List Candidate :=
  goB (bikesLinkFilter atags) []

/-- The raw hrefs strategy B accepts, in order: the same loop as `goB`
projected to the href that is added to `seen_links` on each append. -/
def acceptedHrefsGo : List ATag → List String → List String
  | [], _ => []
  | a :: rest, seen =>
    let href := (a.href.getD "")
    if href ∈ seen then acceptedHrefsGo rest seen
    else if countChar href '/' > 2 then
      if a.text ≠ "" then href :: acceptedHrefsGo rest (href :: seen)
      else acceptedHrefsGo rest seen
    else acceptedHrefsGo rest seen

/-- The raw hrefs strategy B accepts for a document's anchors. -/
def acceptedHrefs (atags : List ATag) : List String :=
  acceptedHrefsGo (bikesLinkFilter atags) []

/-- The parsing core of `fetch_bike_links_playwright`, from the rendered
content on: strategy A extracts every grid's direct children; strategy B
runs only when A produced nothing. -/
def fetch_bike_links_playwright (page : ListingPage) : List Candidate :=
  let bikes := (page.grids.map (fun lis => lis.filterMap extract_list_item)).flatten
  if bikes.isEmpty then strategyB page.atags else bikes

/-! ## Detail extraction (`extract_detailed_bike_info`)

A detail page is modelled by the two things the extractor inspects: the
JSON-LD `product-schema-script` block (`none` when the tag is absent,
`Except.error ()` when `json.loads` raises) and the "contentCard" spec
tables (each card a list of rows, each row the list of its column texts).
The `try/except` around the JSON-LD mapping is modelled step by step: each
mapping step either succeeds or raises, and a raise keeps the fields
already assigned to `bike_details` and ends the block. -/

/-- The detail page as the extractor sees it. -/
structure DetailPage where
  jsonLd : Option (Except Unit Val)
  cards : List (List (List String))

/-- The `bike_details` dict: each field is a possible key of the dict,
`none` when the key was never assigned. -/
structure BikeDetails where
  basic_info : Option (List (String × Val)) := none
  engine : Option (List (String × Val)) := none
  price : Option (List (String × Val)) := none
  brand : Option (List (String × Val)) := none
  scraped_specs : Option (List (String × String)) := none
  fuel : Option (List (String × Val)) := none

/-- Python's `k in data` for an arbitrary JSON value: key test for dicts,
element test for lists (only a string element can equal a string), substring
test for strings; a `TypeError` for the other types. -/
def vContainsStr (data : Val) (k : String) : Except Unit Bool :=
  match data with
  | .dict es => .ok (hasKey es k)
  | .list items =>
    .ok (items.any fun v => match v with | .str t => t = k | _ => false)
  | .str s => .ok (hasSubStr s k)
  | _ => .error ()

/-- Python's `data[k]` for a string key: only a dict succeeds (a missing key
is a `KeyError`); lists and strings need integer indices. -/
def getItemStr (data : Val) (k : String) : Except Unit Val :=
  match data with
  | .dict es =>
    match lookupKey es k with
    | some v => .ok v
    | none => .error ()
  | _ => .error ()

/-- Python's `x[0]`: first element of a list, first character of a string
(as a one-character string); everything else raises. -/
def index0 : Val → Except Unit Val
  | .list (x :: _) => .ok x
  | .str s =>
    match s.data with
    | c :: _ => .ok (.str (String.mk [c]))
    | [] => .error ()
  | _ => .error ()

/-- The `@graph` unwrap at the top of the `try` block:
`if '@graph' in data: data = data['@graph'][0]`. -/
def graphUnwrap (data : Val) : Except Unit Val :=
  match vContainsStr data "@graph" with
  | .error _ => .error ()
  | .ok true =>
    match getItemStr data "@graph" with
    | .error _ => .error ()
    | .ok g => index0 g
  | .ok false => .ok data

/-- The `basic_info` dict built from the (dict-shaped) JSON-LD data:
every key is assigned, with `None` for an absent source field. -/
def mkBasicInfo (es : List (String × Val)) : List (String × Val) :=
  [("name", dGet es "name"),
   ("manufacturer", dGet es "manufacturer"),
   ("model", dGet es "model"),
   ("body_type", dGet es "bodyType"),
   ("description", dGet es "description"),
   ("sku", dGet es "sku")]

/-- The engine step: absent `vehicleEngine` assigns nothing (`ok none`);
a list value is unwrapped to its head, or `{}` when empty; the mapping's
`.get` calls then need a dict, anything else raises. -/
def engineField (es : List (String × Val)) :
    Except Unit (Option (List (String × Val))) :=
  if hasKey es "vehicleEngine" then
    let ed := dGet es "vehicleEngine"
    let ed :=
      match ed with
      | .list (x :: _) => x
      | .list [] => .dict []
      | other => other
    match ed with
    | .dict ees =>
      .ok (some
        [("displacement", dGet ees "engineDisplacement"),
         ("power", dGet ees "enginePower"),
         ("torque", dGet ees "torque"),
         ("fuel_type", dGet ees "fuelType")])
    | _ => .error ()
  else .ok none

/-- The offers/price step: absent `offers` assigns nothing; the mapping's
`.get` calls need a dict, anything else raises. -/
def priceField (es : List (String × Val)) :
    Except Unit (Option (List (String × Val))) :=
  if hasKey es "offers" then
    match dGet es "offers" with
    | .dict os =>
      .ok (some
        [("value", dGet os "price"),
         ("currency", dGet os "priceCurrency"),
         ("availability", dGet os "availability")])
    | _ => .error ()
  else .ok none

/-- The brand step: absent `brand` assigns nothing; `data['brand'].get('name')`
needs a dict, anything else raises. -/
def brandField (es : List (String × Val)) :
    Except Unit (Option (List (String × Val))) :=
  if hasKey es "brand" then
    match dGet es "brand" with
    | .dict bs => .ok (some [("name", dGet bs "name")])
    | _ => .error ()
  else .ok none

/-- The whole `try` block over the parsed JSON-LD value, starting from the
empty `bike_details`: a raise at any step keeps what was assigned before it
(the `except` clause only logs). -/
def runJsonLd (data0 : Val) : BikeDetails :=
  match graphUnwrap data0 with
  | .error _ => {}
  | .ok data =>
    match data with
    | .dict es =>
      let bd1 : BikeDetails := { basic_info := some (mkBasicInfo es) }
      match engineField es with
      | .error _ => bd1
      | .ok eng =>
        let bd2 := { bd1 with engine := eng }
        match priceField es with
        | .error _ => bd2
        | .ok pr =>
          let bd3 := { bd2 with price := pr }
          match brandField es with
          | .error _ => bd3
          | .ok br => { bd3 with brand := br }
    | _ => {}

/-- The fallback spec mapping: for each "contentCard" container, each
two-column row contributes `specs[label] = value` (later duplicate labels
overwrite earlier ones, dict semantics). -/
def buildSpecs (cards : List (List (List String))) : List (String × String) :=
  cards.foldl
    (fun specs card =>
      card.foldl
        (fun specs row =>
          match row with
          | [k, v] => setKey specs k v
          | _ => specs)
        specs)
    []

/-- The mileage scan: for every label containing `"mileage"`
case-insensitively, `bike_details.setdefault('fuel', {})['efficiency'] = v`
— each match overwrites the efficiency value. -/
def mileageLoop : List (String × String) → Option (List (String × Val)) →
    Option (List (String × Val))
  | [], fuel => fuel
  | (k, v) :: rest, fuel =>
    if hasSubStr (lowerStr k) "mileage" then
      mileageLoop rest (some (setKey (fuel.getD []) "efficiency" (Val.str v)))
    else mileageLoop rest fuel

/-- The last row of the mapping whose label contains `"mileage"`
case-insensitively, in scan order — the row whose value the mileage scan
ends up keeping. -/
def lastMileage : List (String × String) → Option (String × String)
  | [] => none
  | (k, v) :: rest =>
    match lastMileage rest with
    | some r => some r
    | none => if hasSubStr (lowerStr k) "mileage" then some (k, v) else none

/-- The state of `bike_details` after the JSON-LD section: empty when the
script tag is absent or `json.loads` raised, else the `try` block's result. -/
def jsonPart (page : DetailPage) : BikeDetails :=
  match page.jsonLd with
  | some (.ok data) => runJsonLd data
  | _ => {}

/-- The script's `extract_detailed_bike_info(soup)`. The guard
`'mileage' not in bike_details` in the source is always true: no code path
ever creates a `mileage` key, so it is not represented here. -/
def extract_detailed_bike_info (page : DetailPage) : BikeDetails :=
  let bd : BikeDetails := jsonPart page
  let specs := buildSpecs page.cards
  if specs.isEmpty then bd
  else
    let bd := { bd with scraped_specs := some specs }
    { bd with fuel := mileageLoop specs bd.fuel }

/-! ## Record merge and persistence (the per-item part of `main`) -/

/-- The merge block of `main`: ensure `basic_info` exists, overwrite its
`name` with the candidate's title, and synthesize a price from the list
page only when the detail extraction produced no `price` key at all. -/
def mergeListInfo (bike : Candidate) (details : BikeDetails) : BikeDetails :=
  let d :=
    { details with
        basic_info :=
          some (setKey (details.basic_info.getD []) "name" (Val.str bike.title)) }
  match bike.exshowroom_price, d.price with
  | some p, none =>
    { d with price := some [("value", Val.str p), ("currency", Val.str "INR")] }
  | _, _ => d

/-- The persisted-record filename:
`title.replace(' ', '_').replace('/', '_') + ".json"`. -/
def safe_filename (title : String) : String :=
  String.mk (replace1 '/' '_' (replace1 ' ' '_' title.data)) ++ ".json"

/-- The cached raw-page filename: `title.replace(' ', '_') + ".html"`. -/
def htmlName (title : String) : String :=
  String.mk (replace1 ' ' '_' title.data) ++ ".html"

/-- The file state the loop reads and writes: the record files in
`data/new_bike_details` and the cached pages in `.temp/bikes_html`. -/
structure FS where
  json : List String
  html : List String

/-- One iteration of the per-item loop: skip when the record file exists;
else fetch the page unless cached (`download_page` leaves no artifact on
failure and the item is skipped); on success write the cache and the record.
The second component is the record filename written, when one was. -/
def processBike (fetch : String → Option String) (fs : FS) (bike : Candidate) :
    FS × Option String :=
  let fname := safe_filename bike.title
  if fname ∈ fs.json then (fs, none)
  else
    let hname := htmlName bike.title
    if hname ∈ fs.html then
      ({ fs with json := fname :: fs.json }, some fname)
    else
      match fetch bike.link with
      | none => (fs, none)
      | some _ => (⟨fname :: fs.json, hname :: fs.html⟩, some fname)

/-- The per-item loop of `main` over the discovered candidates, returning
the final file state and the record filenames written, in order. -/
def runLoop (fetch : String → Option String) :
    List Candidate → FS → FS × List String
  | [], fs => (fs, [])
  | b :: rest, fs =>
    let step := processBike fetch fs b
    let next := runLoop fetch rest step.1
    (next.1,
      match step.2 with
      | some f => f :: next.2
      | none => next.2)

/-- The character map realized by the two filename replacements: space and
forward slash become underscores, everything else is untouched. -/
def sanitizeChar (c : Char) : Char :=
  if c = ' ' then '_' else if c = '/' then '_' else c

/-- A candidate the loop will not write a record for: either its record
file already exists, or its page fetch fails deterministically and no
cached page exists for it. After one completed run every candidate of the
run is in this state. -/
def recordDone (fetch : String → Option String) (fs : FS) (b : Candidate) : Prop :=
  safe_filename b.title ∈ fs.json ∨
    (fetch b.link = none ∧ htmlName b.title ∉ fs.html)

/-! ## Concrete documents used as counterexamples and witnesses -/

/-- A grid `li` for the Honda CB350, as the listing page renders it. -/
def cb350Item : LiItem :=
  { anchors := [{ jsTracker := true, text := "Honda CB350", href := some "/bikes/honda/cb350" }]
    img := none
    text := "Honda CB350" }

/-- A listing page whose one grid repeats the same item twice. -/
def duplicateGridPage : ListingPage :=
  { grids := [[cb350Item, cb350Item]], atags := [] }

/-- A listing page whose one grid item has an anchor with no visible text. -/
def emptyTitleGridPage : ListingPage :=
  { grids := [[{ anchors := [{ jsTracker := false, text := "", href := some "/bikes/x/y" }]
                 img := none
                 text := "" }]]
    atags := [] }

/-- A listing page with no grid, driving strategy B over three anchors:
a model link, a category link that fails the depth test, and a repeat of
the model link. -/
def linkPatternPage : ListingPage :=
  { grids := []
    atags :=
      [{ href := some "/bikes/honda/cb350", text := "Honda CB350" },
       { href := some "/bikes/", text := "New Bikes" },
       { href := some "/bikes/honda/cb350", text := "Honda CB350" }] }

/-- A detail page with no JSON-LD block and two mileage rows in its spec
table. -/
def twoMileagePage : DetailPage :=
  { jsonLd := none
    cards := [[["Mileage (City)", "35 kmpl"], ["Mileage (Highway)", "40 kmpl"]]] }

/-- A detail page whose JSON-LD block exists but fails to parse, with a
spec table alongside. -/
def parseFailPage : DetailPage :=
  { jsonLd := some (.error ())
    cards := [[["Mileage", "35 kmpl"], ["Displacement", "348 cc"]]] }

/-- A detail page whose JSON-LD block parses to an object carrying only a
`name`: every other mapped leaf is absent from the source. -/
def nameOnlyJsonPage : DetailPage :=
  { jsonLd := some (.ok (Val.dict [("name", Val.str "Honda Activa")]))
    cards := [] }

/-! ## General lemmas about the embedded dict and string operations -/

theorem lookupKey_setKey_self {α : Type} (l : List (String × α)) (k : String) (v : α) :
    lookupKey (setKey l k v) k = some v := by
  induction l with
  | nil => simp [setKey, lookupKey]
  | cons kv rest ih =>
    by_cases h : kv.1 = k
    · simp [setKey, h, lookupKey]
    · simp [setKey, h, lookupKey, ih]

theorem replace1_eq_map (a b : Char) (l : List Char) :
    replace1 a b l = l.map (fun c => if c = a then b else c) := by
  induction l with
  | nil => rfl
  | cons c rest ih => simp [replace1, ih]

/-! ## Lemmas about the two discovery strategies -/

theorem absolize_ne_empty (href : String) : absolize href ≠ "" := by
  unfold absolize
  split
  · rename_i h
    intro he
    rw [he] at h
    exact absurd h (by decide)
  · intro he
    have hd : baseUrl.data ++ href.data = ([] : List Char) := congrArg String.data he
    have hb : baseUrl.data = [] := (List.append_eq_nil.mp hd).1
    exact absurd hb (by decide)

theorem extract_list_item_link (li : LiItem) (c : Candidate)
    (h : extract_list_item li = some c) : ∃ href, c.link = absolize href := by
  unfold extract_list_item at h
  cases ht : titleTag li with
  | none => rw [ht] at h; exact absurd h (by simp)
  | some a =>
    rw [ht] at h
    simp only [Option.some.injEq] at h
    exact ⟨a.href.getD "", by rw [← h]⟩

theorem goB_mem (l : List ATag) (seen : List String) (c : Candidate)
    (hc : c ∈ goB l seen) : c.title ≠ "" ∧ ∃ href, c.link = absolize href := by
  induction l generalizing seen with
  | nil => simp [goB] at hc
  | cons a rest ih =>
    simp only [goB] at hc
    split at hc
    · exact ih _ hc
    · split at hc
      · split at hc
        · rcases List.mem_cons.mp hc with hbeq | htail
          · rename_i h3
            subst hbeq
            exact ⟨h3, a.href.getD "", rfl⟩
          · exact ih _ htail
        · exact ih _ hc
      · exact ih _ hc

theorem goB_map_link (l : List ATag) (seen : List String) :
    (goB l seen).map Candidate.link = (acceptedHrefsGo l seen).map absolize := by
  induction l generalizing seen with
  | nil => rfl
  | cons a rest ih =>
    simp only [goB, acceptedHrefsGo]
    by_cases h1 : (a.href.getD "") ∈ seen
    · rw [if_pos h1, if_pos h1]; exact ih _
    · by_cases h2 : countChar (a.href.getD "") '/' > 2
      · by_cases h3 : a.text ≠ ""
        · rw [if_neg h1, if_neg h1, if_pos h2, if_pos h2, if_pos h3, if_pos h3,
            List.map_cons, List.map_cons, ih]
        · rw [if_neg h1, if_neg h1, if_pos h2, if_pos h2, if_neg h3, if_neg h3]
          exact ih _
      · rw [if_neg h1, if_neg h1, if_neg h2, if_neg h2]; exact ih _

theorem acceptedHrefsGo_mem (l : List ATag) (seen : List String) (h : String)
    (hh : h ∈ acceptedHrefsGo l seen) :
    h ∉ seen ∧ countChar h '/' > 2 := by
  induction l generalizing seen with
  | nil => simp [acceptedHrefsGo] at hh
  | cons a rest ih =>
    simp only [acceptedHrefsGo] at hh
    split at hh
    · exact ih _ hh
    · split at hh
      · split at hh
        · rcases List.mem_cons.mp hh with hbeq | htail
          · rename_i hnotseen hcount _
            subst hbeq
            exact ⟨hnotseen, hcount⟩
          · have hrec := ih _ htail
            exact ⟨fun hmem => hrec.1 (List.mem_cons_of_mem _ hmem), hrec.2⟩
        · exact ih _ hh
      · exact ih _ hh

theorem acceptedHrefsGo_nodup (l : List ATag) (seen : List String) :
    (acceptedHrefsGo l seen).Nodup := by
  induction l generalizing seen with
  | nil => simp [acceptedHrefsGo]
  | cons a rest ih =>
    simp only [acceptedHrefsGo]
    split
    · exact ih _
    · split
      · split
        · refine List.nodup_cons.mpr ⟨?_, ih _⟩
          intro hmem
          exact (acceptedHrefsGo_mem _ _ _ hmem).1 (List.mem_cons_self _ _)
        · exact ih _
      · exact ih _

theorem acceptedHrefsGo_marker (l : List ATag) (seen : List String)
    (hl : ∀ a ∈ l, hasSubStr (a.href.getD "") "/bikes/" = true) :
    ∀ h ∈ acceptedHrefsGo l seen, hasSubStr h "/bikes/" = true := by
  induction l generalizing seen with
  | nil => intro h hh; simp [acceptedHrefsGo] at hh
  | cons a rest ih =>
    intro h hh
    have hltail : ∀ a' ∈ rest, hasSubStr (a'.href.getD "") "/bikes/" = true :=
      fun a' ha' => hl a' (List.mem_cons_of_mem _ ha')
    simp only [acceptedHrefsGo] at hh
    split at hh
    · exact ih _ hltail _ hh
    · split at hh
      · split at hh
        · rcases List.mem_cons.mp hh with hbeq | htail
          · subst hbeq
            exact hl a (List.mem_cons_self _ _)
          · exact ih _ hltail _ htail
        · exact ih _ hltail _ hh
      · exact ih _ hltail _ hh

theorem bikesLinkFilter_marker (atags : List ATag) :
    ∀ a ∈ bikesLinkFilter atags, hasSubStr (a.href.getD "") "/bikes/" = true := by
  intro a ha
  rcases List.mem_filter.mp ha with ⟨_, hcond⟩
  cases hah : a.href with
  | none => rw [hah] at hcond; simp at hcond
  | some hh => rw [hah] at hcond; simpa [hah] using hcond

/-! ## C7: the link-pattern strategy's acceptance test -/

/-- C7: in the link-pattern strategy, the produced candidates correspond
one-to-one (via absolutization) to the accepted hrefs, which are pairwise
distinct (already-seen targets are skipped), each contains the `/bikes/`
marker, and each has more than two `/` separators — a target failing the
depth test contributes no candidate. -/
theorem strategyB_depth_and_dedup (atags : List ATag) :
    (strategyB atags).map Candidate.link = (acceptedHrefs atags).map absolize ∧
    (acceptedHrefs atags).Nodup ∧
    ∀ h ∈ acceptedHrefs atags,
      countChar h '/' > 2 ∧ hasSubStr h "/bikes/" = true := by
  refine ⟨goB_map_link _ _, acceptedHrefsGo_nodup _ _, fun h hh => ?_⟩
  exact ⟨(acceptedHrefsGo_mem _ _ _ hh).2,
    acceptedHrefsGo_marker _ _ (bikesLinkFilter_marker atags) _ hh⟩

/-! ## C1: duplicate links in discovery output -/

/-- C1 (amended): de-duplication happens only in the link-pattern strategy
and is keyed by the raw href: strategy B's candidate links are exactly the
absolutizations of a duplicate-free list of accepted hrefs. The grid
strategy de-duplicates nothing (see the counterexample). -/
theorem dedup_is_by_raw_href_in_strategyB_only (atags : List ATag) :
    (strategyB atags).map Candidate.link = (acceptedHrefs atags).map absolize ∧
    (acceptedHrefs atags).Nodup :=
  ⟨goB_map_link _ _, acceptedHrefsGo_nodup _ _⟩

/-- C1 counterexample: a listing page whose grid repeats one item yields
two candidates with the same link — the grid strategy does not
de-duplicate. -/
theorem duplicate_links_in_grid_strategy :
    (fetch_bike_links_playwright duplicateGridPage).map Candidate.link =
      ["https://www.carandbike.com/bikes/honda/cb350",
       "https://www.carandbike.com/bikes/honda/cb350"] ∧
    ¬ ((fetch_bike_links_playwright duplicateGridPage).map Candidate.link).Nodup := by
  constructor
  · rfl
  · rw [show (fetch_bike_links_playwright duplicateGridPage).map Candidate.link =
      ["https://www.carandbike.com/bikes/honda/cb350",
       "https://www.carandbike.com/bikes/honda/cb350"] from rfl]
    decide

/-! ## C6: non-emptiness of candidate fields -/

/-- C6 (amended): every discovered candidate has a non-empty link
(absolutization always yields a non-empty string), and candidates of the
link-pattern strategy additionally have a non-empty title; the grid
strategy can emit an empty title (see the counterexample). -/
theorem candidate_fields_nonempty (page : ListingPage) :
    (∀ c ∈ fetch_bike_links_playwright page, c.link ≠ "") ∧
    (∀ c ∈ strategyB page.atags, c.title ≠ "" ∧ c.link ≠ "") := by
  have hB : ∀ c ∈ strategyB page.atags, c.title ≠ "" ∧ c.link ≠ "" := by
    intro c hc
    rcases goB_mem _ _ _ hc with ⟨ht, href, hlink⟩
    exact ⟨ht, hlink ▸ absolize_ne_empty href⟩
  refine ⟨?_, hB⟩
  intro c hc
  simp only [fetch_bike_links_playwright] at hc
  split at hc
  · exact (hB c hc).2
  · rcases List.mem_flatten.mp hc with ⟨lcs, hlcs, hcmem⟩
    rcases List.mem_map.mp hlcs with ⟨lis, _, hlise⟩
    rw [← hlise] at hcmem
    rcases List.mem_filterMap.mp hcmem with ⟨li, _, hext⟩
    rcases extract_list_item_link li c hext with ⟨href, hlink⟩
    exact hlink ▸ absolize_ne_empty href

/-- C6 counterexample: a grid item whose anchor has no visible text
produces a candidate with an empty title. -/
theorem empty_title_candidate :
    (fetch_bike_links_playwright emptyTitleGridPage).map Candidate.title = [""] ∧
    ¬ (∀ c ∈ fetch_bike_links_playwright emptyTitleGridPage,
        c.title ≠ "" ∧ c.link ≠ "") := by
  refine ⟨rfl, fun hall => ?_⟩
  have hmem : (⟨"", absolize "/bikes/x/y", none, none⟩ : Candidate) ∈
      fetch_bike_links_playwright emptyTitleGridPage := by
    rw [show fetch_bike_links_playwright emptyTitleGridPage =
      [⟨"", absolize "/bikes/x/y", none, none⟩] from rfl]
    exact List.mem_singleton.mpr rfl
  exact (hall _ hmem).1 rfl

/-! ## C2: the merged record's name is the candidate's title -/

/-- C2: for every candidate and every extraction result, the merged record
has a `basic_info` entry whose `name` is exactly the candidate's `title`,
whatever the structured source supplied (including no `basic_info` at all). -/
theorem merged_basic_info_name_is_title (b : Candidate) (d : BikeDetails) :
    (mergeListInfo b d).basic_info.isSome = true ∧
    lookupKey ((mergeListInfo b d).basic_info.getD []) "name" = some (Val.str b.title) := by
  simp only [mergeListInfo]
  split <;> exact ⟨rfl, lookupKey_setKey_self _ _ _⟩

/-! ## C3: price synthesis from the list price -/

/-- C3: when extraction produced no `price` entry and the candidate carries
a list price, the merged record's price is exactly
`{value: list price text, currency: "INR"}`; when extraction did produce a
`price` entry, the merge leaves it unchanged. -/
theorem merged_price_synthesis (b : Candidate) (d : BikeDetails) :
    (∀ p, b.exshowroom_price = some p → d.price = none →
        (mergeListInfo b d).price =
          some [("value", Val.str p), ("currency", Val.str "INR")]) ∧
    (∀ pr, d.price = some pr → (mergeListInfo b d).price = some pr) := by
  constructor
  · intro p hp hd
    simp [mergeListInfo, hp, hd]
  · intro pr hd
    cases hp : b.exshowroom_price <;> simp [mergeListInfo, hp, hd]

/-! ## Lemmas about detail extraction -/

theorem runJsonLd_fuel (data : Val) : (runJsonLd data).fuel = none := by
  unfold runJsonLd
  repeat (first | rfl | split)

theorem jsonPart_fuel (page : DetailPage) : (jsonPart page).fuel = none := by
  unfold jsonPart
  split
  · exact runJsonLd_fuel _
  · rfl

theorem extract_structured_eq (page : DetailPage) :
    (extract_detailed_bike_info page).basic_info = (jsonPart page).basic_info ∧
    (extract_detailed_bike_info page).engine = (jsonPart page).engine ∧
    (extract_detailed_bike_info page).price = (jsonPart page).price ∧
    (extract_detailed_bike_info page).brand = (jsonPart page).brand := by
  simp only [extract_detailed_bike_info]
  split <;> exact ⟨rfl, rfl, rfl, rfl⟩

theorem mileageLoop_eff (specs : List (String × String)) (x : Val) :
    mileageLoop specs (some [("efficiency", x)]) =
      match lastMileage specs with
      | some r => some [("efficiency", Val.str r.2)]
      | none => some [("efficiency", x)] := by
  induction specs generalizing x with
  | nil => rfl
  | cons kv rest ih =>
    rcases kv with ⟨k, v⟩
    by_cases hm : hasSubStr (lowerStr k) "mileage" = true
    · simp only [mileageLoop, lastMileage, hm, if_pos]
      rw [show setKey ((some [("efficiency", x)] :
          Option (List (String × Val))).getD []) "efficiency" (Val.str v) =
        [("efficiency", Val.str v)] by simp [setKey]]
      rw [ih]
      cases lastMileage rest <;> simp [hm]
    · simp only [mileageLoop, lastMileage, hm]
      rw [if_neg (by simp [hm])]
      rw [ih]
      cases lastMileage rest <;> simp [hm]

theorem mileageLoop_none (specs : List (String × String)) :
    mileageLoop specs none =
      (lastMileage specs).map (fun r => [("efficiency", Val.str r.2)]) := by
  induction specs with
  | nil => rfl
  | cons kv rest ih =>
    rcases kv with ⟨k, v⟩
    by_cases hm : hasSubStr (lowerStr k) "mileage" = true
    · simp only [mileageLoop, lastMileage, hm, if_pos]
      rw [show setKey ((none : Option (List (String × Val))).getD [])
          "efficiency" (Val.str v) = [("efficiency", Val.str v)] by simp [setKey]]
      rw [mileageLoop_eff]
      cases lastMileage rest <;> simp [hm]
    · simp only [mileageLoop, lastMileage, hm]
      rw [if_neg (by simp [hm])]
      rw [ih]
      cases lastMileage rest <;> simp [hm]

/-! ## C5: the mileage fallback -/

/-- C5 (amended): the fallback extractor sets `fuel.efficiency` to the value
of the last label containing `"mileage"` case-insensitively in scan order —
every later match overwrites the earlier value — and leaves `fuel` unset
when no label matches. -/
theorem fuel_is_last_mileage_match (page : DetailPage) :
    (extract_detailed_bike_info page).fuel =
      (lastMileage (buildSpecs page.cards)).map
        (fun r => [("efficiency", Val.str r.2)]) := by
  simp only [extract_detailed_bike_info]
  split
  · rename_i hempty
    rw [jsonPart_fuel]
    rw [List.isEmpty_iff.mp hempty]
    rfl
  · rw [jsonPart_fuel]
    exact mileageLoop_none _

/-- C5 counterexample: with two mileage rows and no prior efficiency value,
the extractor keeps the second row's value, not the first's. -/
theorem last_mileage_wins :
    (extract_detailed_bike_info twoMileagePage).fuel =
      some [("efficiency", Val.str "40 kmpl")] ∧
    (extract_detailed_bike_info twoMileagePage).fuel ≠
      some [("efficiency", Val.str "35 kmpl")] := by
  refine ⟨rfl, fun h => ?_⟩
  rw [show (extract_detailed_bike_info twoMileagePage).fuel =
    some [("efficiency", Val.str "40 kmpl")] from rfl] at h
  simp at h

/-! ## C4: extraction degrades to an empty structured part -/

/-- C4: when the JSON-LD block is absent or fails to parse, the extractor
(a total function — parse failure is a caught, logged case, not an
exception) returns a record with no `basic_info`, `engine`, `price` or
`brand` field. -/
theorem structured_empty_on_parse_failure (page : DetailPage)
    (h : page.jsonLd = none ∨ page.jsonLd = some (Except.error ())) :
    (extract_detailed_bike_info page).basic_info = none ∧
    (extract_detailed_bike_info page).engine = none ∧
    (extract_detailed_bike_info page).price = none ∧
    (extract_detailed_bike_info page).brand = none := by
  have hjp : jsonPart page = {} := by
    unfold jsonPart
    rcases h with h | h <;> rw [h]
  rcases extract_structured_eq page with ⟨h1, h2, h3, h4⟩
  rw [h1, h2, h3, h4, hjp]
  exact ⟨rfl, rfl, rfl, rfl⟩

/-- C4 witness: a page whose JSON-LD block raised on parsing yields none of
the structured fields, while its spec table is still processed. -/
theorem structured_empty_on_parse_failure_witness :
    (extract_detailed_bike_info parseFailPage).basic_info = none ∧
    (extract_detailed_bike_info parseFailPage).engine = none ∧
    (extract_detailed_bike_info parseFailPage).price = none ∧
    (extract_detailed_bike_info parseFailPage).brand = none :=
  structured_empty_on_parse_failure parseFailPage (Or.inr rfl)

/-! ## C10: absent leaves are kept as null placeholders -/

theorem graphUnwrap_dict_no_graph (es : List (String × Val))
    (hg : lookupKey es "@graph" = none) :
    graphUnwrap (Val.dict es) = .ok (Val.dict es) := by
  simp [graphUnwrap, vContainsStr, hasKey, hg]

theorem runJsonLd_dict_basic (es : List (String × Val))
    (hg : lookupKey es "@graph" = none) :
    (runJsonLd (Val.dict es)).basic_info = some (mkBasicInfo es) := by
  unfold runJsonLd
  rw [graphUnwrap_dict_no_graph es hg]
  dsimp only
  repeat (first | rfl | split)

theorem runJsonLd_dict_engine_none (es : List (String × Val))
    (hg : lookupKey es "@graph" = none)
    (he : hasKey es "vehicleEngine" = false) :
    (runJsonLd (Val.dict es)).engine = none := by
  have hef : engineField es = .ok none := by
    unfold engineField
    rw [he]
    rfl
  unfold runJsonLd
  rw [graphUnwrap_dict_no_graph es hg]
  dsimp only
  rw [hef]
  dsimp only
  repeat (first | rfl | split)

/-- C10 (amended): when the structured block parses to an object, the
`basic_info` dict always carries all six mapped keys — a leaf absent from
the source (such as `sku` or `description`) is present with a `None` value,
a null placeholder in the serialized record, not omitted. Only whole
sub-blocks (here: `engine` when `vehicleEngine` is absent) are omitted. -/
theorem absent_leaves_are_null_placeholders (page : DetailPage)
    (es : List (String × Val))
    (h : page.jsonLd = some (Except.ok (Val.dict es)))
    (hg : lookupKey es "@graph" = none) :
    (extract_detailed_bike_info page).basic_info = some (mkBasicInfo es) ∧
    lookupKey (mkBasicInfo es) "sku" = some (dGet es "sku") ∧
    lookupKey (mkBasicInfo es) "description" = some (dGet es "description") ∧
    (lookupKey es "sku" = none → dGet es "sku" = Val.null) ∧
    (hasKey es "vehicleEngine" = false →
      (extract_detailed_bike_info page).engine = none) := by
  have hjp : jsonPart page = runJsonLd (Val.dict es) := by
    unfold jsonPart
    rw [h]
  refine ⟨?_, ?_, ?_, ?_, ?_⟩
  · rw [(extract_structured_eq page).1, hjp]
    exact runJsonLd_dict_basic es hg
  · simp [mkBasicInfo, lookupKey]
  · simp [mkBasicInfo, lookupKey]
  · intro hsku
    simp [dGet, hsku]
  · intro he
    rw [(extract_structured_eq page).2.1, hjp]
    exact runJsonLd_dict_engine_none es hg he

/-- C10 witness: the amended statement instantiated at a page whose parsed
block holds only a `name`. -/
theorem absent_leaves_witness :
    (extract_detailed_bike_info nameOnlyJsonPage).basic_info =
      some (mkBasicInfo [("name", Val.str "Honda Activa")]) ∧
    lookupKey (mkBasicInfo [("name", Val.str "Honda Activa")]) "sku" =
      some (dGet [("name", Val.str "Honda Activa")] "sku") ∧
    lookupKey (mkBasicInfo [("name", Val.str "Honda Activa")]) "description" =
      some (dGet [("name", Val.str "Honda Activa")] "description") ∧
    (lookupKey [("name", Val.str "Honda Activa")] "sku" = none →
      dGet [("name", Val.str "Honda Activa")] "sku" = Val.null) ∧
    (hasKey [("name", Val.str "Honda Activa")] "vehicleEngine" = false →
      (extract_detailed_bike_info nameOnlyJsonPage).engine = none) :=
  absent_leaves_are_null_placeholders nameOnlyJsonPage
    [("name", Val.str "Honda Activa")] rfl rfl

/-- C10 counterexample: a block carrying only a `name` still yields a
`basic_info` whose `sku` (and every other mapped leaf) is present, bound to
the null value — the field is not omitted. -/
theorem sku_included_as_null :
    (extract_detailed_bike_info nameOnlyJsonPage).basic_info =
      some [("name", Val.str "Honda Activa"), ("manufacturer", Val.null),
            ("model", Val.null), ("body_type", Val.null),
            ("description", Val.null), ("sku", Val.null)] ∧
    lookupKey ((extract_detailed_bike_info nameOnlyJsonPage).basic_info.getD [])
      "sku" = some Val.null ∧
    (lookupKey ((extract_detailed_bike_info nameOnlyJsonPage).basic_info.getD [])
      "sku").isSome = true :=
  ⟨rfl, rfl, rfl⟩

/-! ## C8: the persisted-record filename -/

/-- C8: the persisted filename is the title with each space and each
forward slash replaced by an underscore and `".json"` appended; every other
character is left unaltered (`sanitizeChar` is the identity on them). -/
theorem safe_filename_spec (t : String) :
    safe_filename t = String.mk (t.data.map sanitizeChar) ++ ".json" ∧
    ∀ c : Char, c ≠ ' ' → c ≠ '/' → sanitizeChar c = c := by
  constructor
  · unfold safe_filename
    rw [replace1_eq_map, replace1_eq_map, List.map_map]
    have hf : ((fun c => if c = '/' then '_' else c) ∘ fun c => if c = ' ' then '_' else c)
        = sanitizeChar := by
      funext c
      by_cases h1 : c = ' '
      · simp [h1, sanitizeChar]
      · by_cases h2 : c = '/' <;> simp [h1, h2, sanitizeChar, Function.comp]
    rw [hf]
  · intro c h1 h2
    simp [sanitizeChar, h1, h2]


/-! ## C9: idempotence of a second run -/

theorem htmlName_eq_imp (t1 t2 : String) (h : htmlName t1 = htmlName t2) :
    safe_filename t1 = safe_filename t2 := by
  have hd2 : replace1 ' ' '_' t1.data ++ ".html".data =
      replace1 ' ' '_' t2.data ++ ".html".data := congrArg String.data h
  have hr : replace1 ' ' '_' t1.data = replace1 ' ' '_' t2.data :=
    List.append_cancel_right hd2
  unfold safe_filename
  rw [hr]

theorem process_json_mono (fetch : String → Option String) (fs : FS)
    (b : Candidate) (x : String) (hx : x ∈ fs.json) :
    x ∈ (processBike fetch fs b).1.json := by
  simp only [processBike]
  split
  · exact hx
  · split
    · exact List.mem_cons_of_mem _ hx
    · split
      · exact hx
      · exact List.mem_cons_of_mem _ hx

theorem process_establishes (fetch : String → Option String) (fs : FS)
    (b : Candidate) : recordDone fetch (processBike fetch fs b).1 b := by
  unfold recordDone
  simp only [processBike]
  split
  · rename_i hj
    exact Or.inl hj
  · split
    · exact Or.inl (List.mem_cons_self _ _)
    · rename_i hh
      split
      · rename_i hf
        exact Or.inr ⟨hf, hh⟩
      · exact Or.inl (List.mem_cons_self _ _)

theorem process_preserves (fetch : String → Option String) (fs : FS)
    (b b' : Candidate) (hd : recordDone fetch fs b) :
    recordDone fetch (processBike fetch fs b').1 b := by
  rcases hd with hj | ⟨hf, hh⟩
  · exact Or.inl (process_json_mono fetch fs b' _ hj)
  · unfold recordDone
    simp only [processBike]
    split
    · exact Or.inr ⟨hf, hh⟩
    · split
      · exact Or.inr ⟨hf, hh⟩
      · split
        · exact Or.inr ⟨hf, hh⟩
        · by_cases heq : htmlName b.title = htmlName b'.title
          · refine Or.inl ?_
            rw [htmlName_eq_imp _ _ heq]
            exact List.mem_cons_self _ _
          · refine Or.inr ⟨hf, fun hmem => ?_⟩
            rcases List.mem_cons.mp hmem with hh1 | hh2
            · exact heq hh1
            · exact hh hh2

theorem process_skip (fetch : String → Option String) (fs : FS)
    (b : Candidate) (hd : recordDone fetch fs b) :
    processBike fetch fs b = (fs, none) := by
  simp only [processBike]
  split
  · rfl
  · rename_i hj
    rcases hd with hj2 | ⟨hf, hh⟩
    · exact absurd hj2 hj
    · split
      · rename_i hhmem
        exact absurd hhmem hh
      · rw [hf]

theorem runLoop_preserves (fetch : String → Option String)
    (bikes : List Candidate) (fs : FS) (b : Candidate)
    (hd : recordDone fetch fs b) :
    recordDone fetch (runLoop fetch bikes fs).1 b := by
  induction bikes generalizing fs with
  | nil => exact hd
  | cons a rest ih =>
    simp only [runLoop]
    exact ih _ (process_preserves fetch fs b a hd)

theorem runLoop_all_done (fetch : String → Option String)
    (bikes : List Candidate) (fs : FS) :
    ∀ b ∈ bikes, recordDone fetch (runLoop fetch bikes fs).1 b := by
  induction bikes generalizing fs with
  | nil => intro b hb; exact absurd hb (List.not_mem_nil b)
  | cons a rest ih =>
    intro b hb
    simp only [runLoop]
    rcases List.mem_cons.mp hb with hbeq | htail
    · subst hbeq
      exact runLoop_preserves fetch rest _ b (process_establishes fetch fs b)
    · exact ih _ b htail

theorem runLoop_noop (fetch : String → Option String)
    (bikes : List Candidate) (fs : FS)
    (hall : ∀ b ∈ bikes, recordDone fetch fs b) :
    runLoop fetch bikes fs = (fs, []) := by
  induction bikes with
  | nil => rfl
  | cons a rest ih =>
    have hskip := process_skip fetch fs a (hall a (List.mem_cons_self _ _))
    simp only [runLoop, hskip]
    rw [ih (fun b hb => hall b (List.mem_cons_of_mem _ hb))]

/-- C9: running the per-item loop a second time over the file state a
first run left, with the same candidate list and a deterministic fetch
(unchanged page availability), leaves the file state unchanged and writes
no record file at all. -/
theorem second_run_writes_nothing (fetch : String → Option String)
    (bikes : List Candidate) (fs : FS) :
    runLoop fetch bikes (runLoop fetch bikes fs).1 = ((runLoop fetch bikes fs).1, []) :=
  runLoop_noop fetch bikes _ (fun b hb => runLoop_all_done fetch bikes fs b hb)


end VehicleBot
